import Mathlib

/-!
Verification of the icon-recoloring pipeline in `iconmaker.py`.

The per-pixel color transforms, the canvas normalizer, the bundle icon
locator and the two batch loops are embedded as executable Lean
definitions over exact rational arithmetic (the Python code computes with
floats; the rational model is the exact idealization of those formulas).
Pixels are RGBA byte quadruples; images are dimensions plus a pixel map.
External Pillow primitives that the script calls (`ImageChops.multiply`
and `screen`, `Image.paste` with an alpha mask, `ImageOps.colorize`,
`convert("L")`) are embedded from their published per-channel integer
formulas; arbitrary-size LANCZOS resampling is kept abstract as a
parameter, using only Pillow's documented behavior that resizing to the
current size returns an unchanged copy.
-/

namespace IconMaker

/-- Python `int()` applied to a rational: truncation toward zero. -/
def pyInt (q : ℚ) : ℤ := if 0 ≤ q then ⌊q⌋ else -⌊-q⌋

/-- Python `x % 1.0` for a rational `x`: the divisor is positive, so the
result is the fractional part of `x`, lying in `[0, 1)`. -/
def pyMod1 (q : ℚ) : ℚ := q - ⌊q⌋

/-- An RGBA pixel; each channel holds a byte value `0..255`. -/
structure Pixel where
  r : ℕ
  g : ℕ
  b : ℕ
  a : ℕ
deriving DecidableEq, Repr

/-- A fully transparent black pixel `(0, 0, 0, 0)`. -/
def transparentPx : Pixel := ⟨0, 0, 0, 0⟩

/-- An RGBA image buffer: dimensions plus a pixel map.  Pixel values at
coordinates outside the `w × h` grid are irrelevant. -/
structure Img where
  w : ℕ
  h : ℕ
  px : ℕ → ℕ → Pixel

/-- All four channels of the pixel are in byte range. -/
def Pixel.valid (p : Pixel) : Prop := p.r ≤ 255 ∧ p.g ≤ 255 ∧ p.b ≤ 255 ∧ p.a ≤ 255

/-- Every pixel of the image grid is in byte range. -/
def Img.valid (img : Img) : Prop := ∀ x < img.w, ∀ y < img.h, (img.px x y).valid

/-- Buffer equality: same dimensions and the same pixels on the grid. -/
def Img.eqOn (i1 i2 : Img) : Prop :=
  i1.w = i2.w ∧ i1.h = i2.h ∧ ∀ x < i1.w, ∀ y < i1.h, i1.px x y = i2.px x y

/-- CPython `colorsys.rgb_to_hsv`, over exact rationals.  Channels are in
`[0, 1]`; the returned hue is in `[0, 1)`. -/
def rgb_to_hsv (r g b : ℚ) : ℚ × ℚ × ℚ :=
  let maxc := max r (max g b)
  let minc := min r (min g b)
  let v := maxc
  if minc = maxc then (0, 0, v)
  else
    let rangec := maxc - minc
    let s := rangec / maxc
    let rc := (maxc - r) / rangec
    let gc := (maxc - g) / rangec
    let bc := (maxc - b) / rangec
    let h0 := if r = maxc then bc - gc
      else if g = maxc then 2 + rc - bc
      else 4 + gc - rc
    (pyMod1 (h0 / 6), s, v)

/-- CPython `colorsys.hsv_to_rgb`, over exact rationals.  `int(h*6.0)` is
`pyInt`; the integer `%` is Python's nonnegative remainder, which is
`Int.emod`. -/
def hsv_to_rgb (h s v : ℚ) : ℚ × ℚ × ℚ :=
  if s = 0 then (v, v, v)
  else
    let i0 := pyInt (h * 6)
    let f := h * 6 - i0
    let p := v * (1 - s)
    let q := v * (1 - s * f)
    let t := v * (1 - s * (1 - f))
    let i := i0 % 6
    if i = 0 then (v, t, p)
    else if i = 1 then (q, v, p)
    else if i = 2 then (p, v, t)
    else if i = 3 then (p, q, v)
    else if i = 4 then (t, p, v)
    else (v, p, q)

/-- Hue of the target color, as `hue_shift_saturation` computes it:
`colorsys.rgb_to_hsv` applied to the parsed `#RRGGBB` bytes scaled to
`[0, 1]`.  The target color is given as its three parsed byte values. -/
def targetHue (tr tg tb : ℕ) : ℚ :=
  (rgb_to_hsv ((tr : ℚ) / 255) ((tg : ℚ) / 255) ((tb : ℚ) / 255)).1

/-- Per-pixel body of the loop in `hue_shift_saturation`: convert the RGB
channels to HSV, force the hue to the target hue, scale saturation and
value by the multipliers clamping at `1.0`, convert back and truncate each
channel with `int(c * 255)`.  The alpha channel is reattached unchanged
(the function drops alpha before the loop and calls `putalpha` after). -/
def hueLockPixel (targetH satM valM : ℚ) (p : Pixel) : Pixel :=
  let hsv := rgb_to_hsv ((p.r : ℚ) / 255) ((p.g : ℚ) / 255) ((p.b : ℚ) / 255)
  let s := min (hsv.2.1 * satM) 1
  let v := min (hsv.2.2 * valM) 1
  let rgb := hsv_to_rgb targetH s v
  ⟨(pyInt (rgb.1 * 255)).toNat, (pyInt (rgb.2.1 * 255)).toNat,
    (pyInt (rgb.2.2 * 255)).toNat, p.a⟩

/-- The `hue_shift_saturation` transform of `iconmaker.py`, for an RGBA
input image (the initial `convert("RGBA")` is the identity on it) and
target color parsed to the byte triple `(tr, tg, tb)`. -/
def hue_shift_saturation (img : Img) (tr tg tb : ℕ) (satM valM : ℚ) : Img :=
  ⟨img.w, img.h, fun x y => hueLockPixel (targetHue tr tg tb) satM valM (img.px x y)⟩

/-- Saturation that `colorsys.rgb_to_hsv` computes for a byte pixel. -/
def Pixel.sat (p : Pixel) : ℚ :=
  (rgb_to_hsv ((p.r : ℚ) / 255) ((p.g : ℚ) / 255) ((p.b : ℚ) / 255)).2.1

/-- Value (brightness) that `colorsys.rgb_to_hsv` computes for a byte pixel. -/
def Pixel.val (p : Pixel) : ℚ :=
  (rgb_to_hsv ((p.r : ℚ) / 255) ((p.g : ℚ) / 255) ((p.b : ℚ) / 255)).2.2

/-- Largest of three naturals, as `max(r, g, b)` computes it. -/
def natMax3 (a b c : ℕ) : ℕ := max a (max b c)

/-- Smallest of three naturals, as `min(r, g, b)` computes it. -/
def natMin3 (a b c : ℕ) : ℕ := min a (min b c)

/-- Byte value stored for a unit-interval channel: `int(c * 255)`. -/
def chanByte (c : ℚ) : ℕ := (pyInt (c * 255)).toNat

theorem pyInt_of_nonneg (q : ℚ) (h : 0 ≤ q) : pyInt q = ⌊q⌋ := if_pos h

theorem pyInt_mono : Monotone pyInt := by
  intro a b hab
  unfold pyInt
  split_ifs with ha hb hb
  · exact Int.floor_mono hab
  · exact absurd (le_trans ha hab) hb
  · have h1 : (0 : ℤ) ≤ ⌊b⌋ := Int.floor_nonneg.mpr hb
    have h2 : (0 : ℤ) ≤ ⌊-a⌋ := Int.floor_nonneg.mpr (by linarith [not_le.mp ha])
    omega
  · have := Int.floor_mono (neg_le_neg hab)
    omega

theorem pyMod1_nonneg (q : ℚ) : 0 ≤ pyMod1 q := Int.fract_nonneg q

theorem pyMod1_lt_one (q : ℚ) : pyMod1 q < 1 := Int.fract_lt_one q

theorem rgb_to_hsv_hue_bounds (r g b : ℚ) :
    0 ≤ (rgb_to_hsv r g b).1 ∧ (rgb_to_hsv r g b).1 < 1 := by
  simp only [rgb_to_hsv]
  split_ifs <;> dsimp only <;>
    first
      | exact ⟨le_refl 0, by norm_num⟩
      | exact ⟨pyMod1_nonneg _, pyMod1_lt_one _⟩

theorem targetHue_bounds (tr tg tb : ℕ) :
    0 ≤ targetHue tr tg tb ∧ targetHue tr tg tb < 1 :=
  rgb_to_hsv_hue_bounds _ _ _

theorem max_div255 (a b : ℚ) : max (a / 255) (b / 255) = max a b / 255 := by
  rcases le_total a b with h | h
  · rw [max_eq_right h, max_eq_right ((div_le_div_iff_of_pos_right (by norm_num)).mpr h)]
  · rw [max_eq_left h, max_eq_left ((div_le_div_iff_of_pos_right (by norm_num)).mpr h)]

theorem min_div255 (a b : ℚ) : min (a / 255) (b / 255) = min a b / 255 := by
  rcases le_total a b with h | h
  · rw [min_eq_left h, min_eq_left ((div_le_div_iff_of_pos_right (by norm_num)).mpr h)]
  · rw [min_eq_right h, min_eq_right ((div_le_div_iff_of_pos_right (by norm_num)).mpr h)]

theorem max3_div255 (r g b : ℕ) :
    max ((r : ℚ) / 255) (max ((g : ℚ) / 255) ((b : ℚ) / 255)) =
      (natMax3 r g b : ℚ) / 255 := by
  rw [max_div255, max_div255, natMax3]
  push_cast [Nat.cast_max]
  ring_nf

theorem min3_div255 (r g b : ℕ) :
    min ((r : ℚ) / 255) (min ((g : ℚ) / 255) ((b : ℚ) / 255)) =
      (natMin3 r g b : ℚ) / 255 := by
  rw [min_div255, min_div255, natMin3]
  push_cast [Nat.cast_min]
  ring_nf

theorem div255_inj (a b : ℚ) (h : a / 255 = b / 255) : a = b := by
  field_simp at h
  exact h

/-- The value component computed by `rgb_to_hsv` on a byte pixel is the
largest channel over 255. -/
theorem rgb_to_hsv_val_bytes (r g b : ℕ) :
    (rgb_to_hsv ((r : ℚ) / 255) ((g : ℚ) / 255) ((b : ℚ) / 255)).2.2 =
      (natMax3 r g b : ℚ) / 255 := by
  simp only [rgb_to_hsv]
  split_ifs <;> dsimp only <;> exact max3_div255 r g b

/-- The saturation component computed by `rgb_to_hsv` on a byte pixel:
zero when all channels coincide, else `(max - min) / max`. -/
theorem rgb_to_hsv_sat_bytes (r g b : ℕ) :
    (rgb_to_hsv ((r : ℚ) / 255) ((g : ℚ) / 255) ((b : ℚ) / 255)).2.1 =
      if natMin3 r g b = natMax3 r g b then 0
      else ((natMax3 r g b : ℚ) - natMin3 r g b) / natMax3 r g b := by
  have hmax := max3_div255 r g b
  have hmin := min3_div255 r g b
  have hMm : natMin3 r g b ≤ natMax3 r g b :=
    le_trans (min_le_left _ _) (le_max_left _ _)
  simp only [rgb_to_hsv]
  by_cases hc : natMin3 r g b = natMax3 r g b
  · rw [if_pos (by rw [hmin, hmax, hc]), if_pos hc]
  · have hlt : natMin3 r g b < natMax3 r g b := lt_of_le_of_ne hMm hc
    have hMpos : 0 < natMax3 r g b := lt_of_le_of_lt (Nat.zero_le _) hlt
    have hM0 : (natMax3 r g b : ℚ) ≠ 0 := by
      exact_mod_cast Nat.pos_iff_ne_zero.mp hMpos
    have hcond : ¬ (min ((r : ℚ) / 255) (min ((g : ℚ) / 255) ((b : ℚ) / 255)) =
        max ((r : ℚ) / 255) (max ((g : ℚ) / 255) ((b : ℚ) / 255))) := by
      rw [hmin, hmax]
      intro h
      have h2 : (natMin3 r g b : ℚ) = (natMax3 r g b : ℚ) := div255_inj _ _ h
      exact hc (by exact_mod_cast h2)
    rw [if_neg hcond, if_neg hc]
    dsimp only
    rw [hmin, hmax]
    field_simp

theorem hsv_to_rgb_s_zero (h v : ℚ) : hsv_to_rgb h 0 v = (v, v, v) := by
  simp [hsv_to_rgb]

theorem max3_eq_of (a b c v : ℚ) (ha : a ≤ v) (hb : b ≤ v) (hc : c ≤ v)
    (hm : a = v ∨ b = v ∨ c = v) : max a (max b c) = v := by
  rcases hm with h | h | h <;>
    subst h <;>
    simp [max_eq_left, max_eq_right, ha, hb, hc, max_le, le_max_iff, le_antisymm_iff,
      le_refl, le_max_left, le_max_right]

theorem min3_eq_of (a b c p : ℚ) (ha : p ≤ a) (hb : p ≤ b) (hc : p ≤ c)
    (hm : a = p ∨ b = p ∨ c = p) : min a (min b c) = p := by
  rcases hm with h | h | h <;>
    subst h <;>
    simp [le_antisymm_iff, le_min_iff, min_le_iff] <;>
    first
      | exact ⟨Or.inl (le_refl _), ha, hb, hc⟩
      | exact ⟨Or.inr (Or.inl (le_refl _)), ha, hb, hc⟩
      | exact ⟨Or.inr (Or.inr (le_refl _)), ha, hb, hc⟩
      | tauto

/-- Range of the six-way branch of `hsv_to_rgb`: for `0 < s ≤ 1`,
`0 ≤ v`, `0 ≤ f < 1`, the returned triple has largest channel `v` and
smallest channel `v * (1 - s)`, whichever branch is taken. -/
theorem hsvTriple_max_min (s v f : ℚ) (n : ℤ)
    (hs0 : 0 < s) (hs1 : s ≤ 1) (hv0 : 0 ≤ v) (hf0 : 0 ≤ f) (hf1 : f < 1) :
    max (if n % 6 = 0 then (v, v * (1 - s * (1 - f)), v * (1 - s))
        else if n % 6 = 1 then (v * (1 - s * f), v, v * (1 - s))
        else if n % 6 = 2 then (v * (1 - s), v, v * (1 - s * (1 - f)))
        else if n % 6 = 3 then (v * (1 - s), v * (1 - s * f), v)
        else if n % 6 = 4 then (v * (1 - s * (1 - f)), v * (1 - s), v)
        else (v, v * (1 - s), v * (1 - s * f))).1
      (max (if n % 6 = 0 then (v, v * (1 - s * (1 - f)), v * (1 - s))
        else if n % 6 = 1 then (v * (1 - s * f), v, v * (1 - s))
        else if n % 6 = 2 then (v * (1 - s), v, v * (1 - s * (1 - f)))
        else if n % 6 = 3 then (v * (1 - s), v * (1 - s * f), v)
        else if n % 6 = 4 then (v * (1 - s * (1 - f)), v * (1 - s), v)
        else (v, v * (1 - s), v * (1 - s * f))).2.1
        (if n % 6 = 0 then (v, v * (1 - s * (1 - f)), v * (1 - s))
        else if n % 6 = 1 then (v * (1 - s * f), v, v * (1 - s))
        else if n % 6 = 2 then (v * (1 - s), v, v * (1 - s * (1 - f)))
        else if n % 6 = 3 then (v * (1 - s), v * (1 - s * f), v)
        else if n % 6 = 4 then (v * (1 - s * (1 - f)), v * (1 - s), v)
        else (v, v * (1 - s), v * (1 - s * f))).2.2) = v ∧
    min (if n % 6 = 0 then (v, v * (1 - s * (1 - f)), v * (1 - s))
        else if n % 6 = 1 then (v * (1 - s * f), v, v * (1 - s))
        else if n % 6 = 2 then (v * (1 - s), v, v * (1 - s * (1 - f)))
        else if n % 6 = 3 then (v * (1 - s), v * (1 - s * f), v)
        else if n % 6 = 4 then (v * (1 - s * (1 - f)), v * (1 - s), v)
        else (v, v * (1 - s), v * (1 - s * f))).1
      (min (if n % 6 = 0 then (v, v * (1 - s * (1 - f)), v * (1 - s))
        else if n % 6 = 1 then (v * (1 - s * f), v, v * (1 - s))
        else if n % 6 = 2 then (v * (1 - s), v, v * (1 - s * (1 - f)))
        else if n % 6 = 3 then (v * (1 - s), v * (1 - s * f), v)
        else if n % 6 = 4 then (v * (1 - s * (1 - f)), v * (1 - s), v)
        else (v, v * (1 - s), v * (1 - s * f))).2.1
        (if n % 6 = 0 then (v, v * (1 - s * (1 - f)), v * (1 - s))
        else if n % 6 = 1 then (v * (1 - s * f), v, v * (1 - s))
        else if n % 6 = 2 then (v * (1 - s), v, v * (1 - s * (1 - f)))
        else if n % 6 = 3 then (v * (1 - s), v * (1 - s * f), v)
        else if n % 6 = 4 then (v * (1 - s * (1 - f)), v * (1 - s), v)
        else (v, v * (1 - s), v * (1 - s * f))).2.2) = v * (1 - s) := by
  have h1 : 0 ≤ s * f := mul_nonneg hs0.le hf0
  have h2 : 0 ≤ s * (1 - f) := mul_nonneg hs0.le (by linarith)
  have hqv : v * (1 - s * f) ≤ v := by nlinarith [mul_nonneg hv0 h1]
  have htv : v * (1 - s * (1 - f)) ≤ v := by nlinarith [mul_nonneg hv0 h2]
  have hpv : v * (1 - s) ≤ v := by nlinarith [mul_nonneg hv0 hs0.le]
  have hpq : v * (1 - s) ≤ v * (1 - s * f) := by
    nlinarith [mul_nonneg (mul_nonneg hv0 hs0.le) (by linarith : (0 : ℚ) ≤ 1 - f)]
  have hpt : v * (1 - s) ≤ v * (1 - s * (1 - f)) := by
    nlinarith [mul_nonneg (mul_nonneg hv0 hs0.le) hf0]
  split_ifs <;> dsimp only <;> constructor
  · exact max3_eq_of _ _ _ _ (le_refl v) htv hpv (Or.inl rfl)
  · exact min3_eq_of _ _ _ _ hpv hpt (le_refl _) (Or.inr (Or.inr rfl))
  · exact max3_eq_of _ _ _ _ hqv (le_refl v) hpv (Or.inr (Or.inl rfl))
  · exact min3_eq_of _ _ _ _ hpq hpv (le_refl _) (Or.inr (Or.inr rfl))
  · exact max3_eq_of _ _ _ _ hpv (le_refl v) htv (Or.inr (Or.inl rfl))
  · exact min3_eq_of _ _ _ _ (le_refl _) hpv hpt (Or.inl rfl)
  · exact max3_eq_of _ _ _ _ hpv hqv (le_refl v) (Or.inr (Or.inr rfl))
  · exact min3_eq_of _ _ _ _ (le_refl _) hpq hpv (Or.inl rfl)
  · exact max3_eq_of _ _ _ _ htv hpv (le_refl v) (Or.inr (Or.inr rfl))
  · exact min3_eq_of _ _ _ _ hpt (le_refl _) hpv (Or.inr (Or.inl rfl))
  · exact max3_eq_of _ _ _ _ (le_refl v) hpv hqv (Or.inl rfl)
  · exact min3_eq_of _ _ _ _ hpv (le_refl _) hpq (Or.inr (Or.inl rfl))

/-- For a hue in `[0, 1)`, positive saturation at most one, and a
nonnegative value, `hsv_to_rgb` returns three channels whose largest is
`v` and whose smallest is `v * (1 - s)`. -/
theorem hsv_to_rgb_max_min (h s v : ℚ) (hh0 : 0 ≤ h) (hh1 : h < 1)
    (hs0 : 0 < s) (hs1 : s ≤ 1) (hv0 : 0 ≤ v) :
    max (hsv_to_rgb h s v).1 (max (hsv_to_rgb h s v).2.1 (hsv_to_rgb h s v).2.2) = v ∧
    min (hsv_to_rgb h s v).1 (min (hsv_to_rgb h s v).2.1 (hsv_to_rgb h s v).2.2) =
      v * (1 - s) := by
  have h6 : 0 ≤ h * 6 := by linarith
  have h6' : h * 6 < 6 := by linarith
  have hi : pyInt (h * 6) = ⌊h * 6⌋ := pyInt_of_nonneg _ h6
  have hf0 : 0 ≤ h * 6 - (⌊h * 6⌋ : ℚ) := by
    have := Int.floor_le (h * 6)
    linarith
  have hf1 : h * 6 - (⌊h * 6⌋ : ℚ) < 1 := by
    have := Int.lt_floor_add_one (h * 6)
    linarith
  simp only [hsv_to_rgb, hi]
  rw [if_neg (ne_of_gt hs0)]
  exact hsvTriple_max_min s v (h * 6 - (⌊h * 6⌋ : ℚ)) ⌊h * 6⌋ hs0 hs1 hv0 hf0 hf1

theorem chanByte_mono : Monotone chanByte := by
  intro a b hab
  exact Int.toNat_le_toNat (pyInt_mono (by nlinarith))

theorem chanByte_natCast_div (n : ℕ) : chanByte ((n : ℚ) / 255) = n := by
  unfold chanByte
  rw [div_mul_cancel₀ _ (by norm_num : (255 : ℚ) ≠ 0)]
  rw [pyInt_of_nonneg _ (by positivity), Int.floor_natCast, Int.toNat_natCast]

/-- Storing the three channels of `hsv_to_rgb` applied at the saturation
and value that `rgb_to_hsv` computed for a byte pixel recovers exactly the
original largest channel `M` and smallest channel `m`: the value channel
`v*255 = M` and the low channel `v*(1-s)*255 = m` are integers, and byte
truncation is monotone. -/
theorem chanByte_roundtrip (M m : ℕ) (H s v : ℚ) (hH0 : 0 ≤ H) (hH1 : H < 1)
    (hmM : m ≤ M) (hM255 : M ≤ 255)
    (hs : s = if m = M then 0 else ((M : ℚ) - m) / M) (hv : v = (M : ℚ) / 255) :
    natMax3 (chanByte (hsv_to_rgb H s v).1) (chanByte (hsv_to_rgb H s v).2.1)
      (chanByte (hsv_to_rgb H s v).2.2) = M ∧
    natMin3 (chanByte (hsv_to_rgb H s v).1) (chanByte (hsv_to_rgb H s v).2.1)
      (chanByte (hsv_to_rgb H s v).2.2) = m := by
  by_cases hc : m = M
  · rw [if_pos hc] at hs
    subst hs hv hc
    rw [hsv_to_rgb_s_zero]
    dsimp only
    rw [chanByte_natCast_div]
    constructor
    · simp [natMax3]
    · simp [natMin3]
  · rw [if_neg hc] at hs
    have hlt : m < M := lt_of_le_of_ne hmM hc
    have hMpos : 0 < M := lt_of_le_of_lt (Nat.zero_le _) hlt
    have hM0 : (M : ℚ) ≠ 0 := by exact_mod_cast Nat.pos_iff_ne_zero.mp hMpos
    have hs0 : 0 < s := by
      rw [hs]
      apply div_pos
      · have : (m : ℚ) < M := by exact_mod_cast hlt
        linarith
      · exact_mod_cast hMpos
    have hs1 : s ≤ 1 := by
      rw [hs, div_le_one (by exact_mod_cast hMpos)]
      have : (0 : ℚ) ≤ m := by positivity
      linarith
    have hv0 : 0 ≤ v := by rw [hv]; positivity
    obtain ⟨hmax, hmin⟩ := hsv_to_rgb_max_min H s v hH0 hH1 hs0 hs1 hv0
    have hlow : v * (1 - s) = (m : ℚ) / 255 := by
      rw [hs, hv]
      field_simp
      ring
    constructor
    · rw [natMax3, ← chanByte_mono.map_max, ← chanByte_mono.map_max, hmax, hv,
        chanByte_natCast_div]
    · rw [natMin3, ← chanByte_mono.map_min, ← chanByte_mono.map_min, hmin, hlow,
        chanByte_natCast_div]

/-- Conclusion of claim C1 for an image and a target color given by its
parsed bytes: the transform keeps the dimensions; each output pixel is the
input pixel with its hue replaced by the target hue (the hue-lock pixel
map at unit multipliers); each pixel's computed saturation and value are
unchanged (exactly, in the rational model, hence up to rounding for the
float code); and the alpha channel is unchanged. -/
def HueLockSpec (img : Img) (tr tg tb : ℕ) : Prop :=
  (hue_shift_saturation img tr tg tb 1 1).w = img.w ∧
  (hue_shift_saturation img tr tg tb 1 1).h = img.h ∧
  ∀ x < img.w, ∀ y < img.h,
    (hue_shift_saturation img tr tg tb 1 1).px x y =
        hueLockPixel (targetHue tr tg tb) 1 1 (img.px x y) ∧
      ((hue_shift_saturation img tr tg tb 1 1).px x y).a = (img.px x y).a ∧
      ((hue_shift_saturation img tr tg tb 1 1).px x y).sat = (img.px x y).sat ∧
      ((hue_shift_saturation img tr tg tb 1 1).px x y).val = (img.px x y).val

/-- Per-pixel form of claim C1: at unit multipliers the hue-lock pixel map
preserves alpha exactly and preserves the pixel's computed saturation and
value exactly. -/
theorem hueLockPixel_preserves (p : Pixel) (hp : p.valid) (H : ℚ)
    (hH0 : 0 ≤ H) (hH1 : H < 1) :
    (hueLockPixel H 1 1 p).a = p.a ∧
    (hueLockPixel H 1 1 p).sat = p.sat ∧
    (hueLockPixel H 1 1 p).val = p.val := by
  obtain ⟨hr, hg, hb, -⟩ := hp
  have hM255 : natMax3 p.r p.g p.b ≤ 255 := max_le hr (max_le hg hb)
  have hmM : natMin3 p.r p.g p.b ≤ natMax3 p.r p.g p.b :=
    le_trans (min_le_left _ _) (le_max_left _ _)
  have hsat := rgb_to_hsv_sat_bytes p.r p.g p.b
  have hval := rgb_to_hsv_val_bytes p.r p.g p.b
  have hs_le1 :
      (rgb_to_hsv ((p.r : ℚ) / 255) ((p.g : ℚ) / 255) ((p.b : ℚ) / 255)).2.1 ≤ 1 := by
    rw [hsat]
    split_ifs with h
    · norm_num
    · have hpos : 0 < natMax3 p.r p.g p.b :=
        lt_of_le_of_lt (Nat.zero_le _) (lt_of_le_of_ne hmM h)
      rw [div_le_one (by exact_mod_cast hpos)]
      have h0 : (0 : ℚ) ≤ natMin3 p.r p.g p.b := by positivity
      linarith
  have hv_le1 :
      (rgb_to_hsv ((p.r : ℚ) / 255) ((p.g : ℚ) / 255) ((p.b : ℚ) / 255)).2.2 ≤ 1 := by
    rw [hval, div_le_one (by norm_num)]
    exact_mod_cast hM255
  have hpx : hueLockPixel H 1 1 p =
      ⟨chanByte (hsv_to_rgb H
          (rgb_to_hsv ((p.r : ℚ) / 255) ((p.g : ℚ) / 255) ((p.b : ℚ) / 255)).2.1
          (rgb_to_hsv ((p.r : ℚ) / 255) ((p.g : ℚ) / 255) ((p.b : ℚ) / 255)).2.2).1,
        chanByte (hsv_to_rgb H
          (rgb_to_hsv ((p.r : ℚ) / 255) ((p.g : ℚ) / 255) ((p.b : ℚ) / 255)).2.1
          (rgb_to_hsv ((p.r : ℚ) / 255) ((p.g : ℚ) / 255) ((p.b : ℚ) / 255)).2.2).2.1,
        chanByte (hsv_to_rgb H
          (rgb_to_hsv ((p.r : ℚ) / 255) ((p.g : ℚ) / 255) ((p.b : ℚ) / 255)).2.1
          (rgb_to_hsv ((p.r : ℚ) / 255) ((p.g : ℚ) / 255) ((p.b : ℚ) / 255)).2.2).2.2,
        p.a⟩ := by
    simp only [hueLockPixel, chanByte]
    rw [mul_one, mul_one, min_eq_left hs_le1, min_eq_left hv_le1]
  obtain ⟨hmax3, hmin3⟩ := chanByte_roundtrip (natMax3 p.r p.g p.b) (natMin3 p.r p.g p.b)
    H _ _ hH0 hH1 hmM hM255 hsat hval
  refine ⟨rfl, ?_, ?_⟩
  · rw [hpx]
    simp only [Pixel.sat]
    rw [rgb_to_hsv_sat_bytes, hmax3, hmin3, ← hsat]
  · rw [hpx]
    simp only [Pixel.val]
    rw [rgb_to_hsv_val_bytes, hmax3, ← hval]

/-- Claim C1: for every RGBA image with byte-range pixels and every target
color (given by its three parsed bytes, the image of a valid 6-hex-digit
descriptor), `hue_shift_saturation` with both multipliers `1.0` replaces
every pixel's hue with the target hue while preserving the pixel's
computed saturation and value (exactly in the rational model, hence up to
rounding) and leaving every alpha value exactly unchanged. -/
theorem hue_lock_unit_multipliers_spec (img : Img) (tr tg tb : ℕ) (hv : img.valid) :
    HueLockSpec img tr tg tb := by
  obtain ⟨hH0, hH1⟩ := targetHue_bounds tr tg tb
  refine ⟨rfl, rfl, fun x hx y hy => ?_⟩
  obtain ⟨ha, hs, hvv⟩ := hueLockPixel_preserves (img.px x y) (hv x hx y hy) _ hH0 hH1
  exact ⟨rfl, ha, hs, hvv⟩

/-- Witness for claim C1 at a concrete one-pixel image and the target
color with bytes `(255, 182, 193)` (hex `#FFB6C1`). -/
theorem hue_lock_unit_multipliers_spec_witness :
    (⟨1, 1, fun _ _ => ⟨13, 200, 50, 77⟩⟩ : Img).valid ∧
    HueLockSpec ⟨1, 1, fun _ _ => ⟨13, 200, 50, 77⟩⟩ 255 182 193 :=
  ⟨by unfold Img.valid Pixel.valid; decide,
    hue_lock_unit_multipliers_spec _ 255 182 193 (by unfold Img.valid Pixel.valid; decide)⟩

/-- Pillow's `MULDIV255` macro: the byte product `a*b/255` computed as
`tmp = a*b + 128; ((tmp >> 8) + tmp) >> 8`.  This is the per-channel
primitive of `ImageChops.multiply`, `ImageChops.screen` and the masked
`Image.paste` blend. -/
def muldiv255 (a b : ℕ) : ℕ := ((a * b + 128) / 256 + (a * b + 128)) / 256

set_option maxRecDepth 4000 in
theorem muldiv255_255_fin : ∀ c : Fin 256, muldiv255 c 255 = c := by decide

theorem muldiv255_255 (c : ℕ) (hc : c ≤ 255) : muldiv255 c 255 = c :=
  muldiv255_255_fin ⟨c, Nat.lt_succ_of_le hc⟩

theorem muldiv255_zero_right (a : ℕ) : muldiv255 a 0 = 0 := by simp [muldiv255]

theorem muldiv255_zero_left (b : ℕ) : muldiv255 0 b = 0 := by simp [muldiv255]

/-- Solid overlay pixel created by `Image.new("RGBA", size, overlay_hex)`:
`ImageColor.getrgb` on a `#RRGGBB` string yields an RGB triple, and the
missing alpha band is filled with 255. -/
def solidPx (cr cg cb : ℕ) : Pixel := ⟨cr, cg, cb, 255⟩

/-- Per-pixel formula of Pillow `ImageChops.multiply` on RGBA images:
every band, alpha included, is `MULDIV255(a, b)`. -/
def chop_multiply (p q : Pixel) : Pixel :=
  ⟨muldiv255 p.r q.r, muldiv255 p.g q.g, muldiv255 p.b q.b, muldiv255 p.a q.a⟩

/-- Per-pixel formula of Pillow `ImageChops.screen` on RGBA images:
every band, alpha included, is `255 - MULDIV255(255 - a, 255 - b)`. -/
def chop_screen (p q : Pixel) : Pixel :=
  ⟨255 - muldiv255 (255 - p.r) (255 - q.r), 255 - muldiv255 (255 - p.g) (255 - q.g),
    255 - muldiv255 (255 - p.b) (255 - q.b), 255 - muldiv255 (255 - p.a) (255 - q.a)⟩

/-- The `overlay_blend` transform of `iconmaker.py`: build a solid layer
of the overlay color, then blend with `screen`, `multiply`, or the
`screen` fallback for any other mode string.  The overlay color is given
by its parsed bytes `(cr, cg, cb)`. -/
def overlay_blend (img : Img) (cr cg cb : ℕ) (blend_mode : String) : Img :=
  if blend_mode = "screen" then
    ⟨img.w, img.h, fun x y => chop_screen (img.px x y) (solidPx cr cg cb)⟩
  else if blend_mode = "multiply" then
    ⟨img.w, img.h, fun x y => chop_multiply (img.px x y) (solidPx cr cg cb)⟩
  else
    ⟨img.w, img.h, fun x y => chop_screen (img.px x y) (solidPx cr cg cb)⟩

/-- A one-pixel image whose pixel is fully transparent, used to exhibit
that screen blending does not preserve transparency. -/
def c8img : Img := ⟨1, 1, fun _ _ => ⟨10, 20, 30, 0⟩⟩

/-- Counterexample to claim C8 as stated: for the one-pixel image with
pixel `(10, 20, 30, 0)`, overlay-blend in `screen` mode with the all-black
overlay `#000000` does not return the source image unchanged — the output
pixel is `(10, 20, 30, 255)`, i.e. the alpha channel is forced to 255. -/
theorem overlay_screen_black_not_identity :
    ¬ Img.eqOn (overlay_blend c8img 0 0 0 "screen") c8img := by
  unfold Img.eqOn overlay_blend chop_screen solidPx c8img muldiv255
  decide

/-- Screen blending a fully opaque byte pixel with opaque black is the
identity: `255 - MULDIV255(255 - c, 255) = c` on the color bands and
`255 - MULDIV255(0, 0) = 255` on alpha. -/
theorem chop_screen_black (r g b : ℕ) (h1 : r ≤ 255) (h2 : g ≤ 255) (h3 : b ≤ 255) :
    chop_screen ⟨r, g, b, 255⟩ (solidPx 0 0 0) = ⟨r, g, b, 255⟩ := by
  unfold chop_screen solidPx
  simp only [Nat.sub_zero, Nat.sub_self, muldiv255_zero_left]
  rw [muldiv255_255 (255 - r) (by omega), muldiv255_255 (255 - g) (by omega),
    muldiv255_255 (255 - b) (by omega)]
  simp only [Pixel.mk.injEq]
  refine ⟨by omega, by omega, by omega, by trivial⟩

/-- Conclusion of claim C8 as amended: multiply with an all-white overlay
is the identity on every byte-range image (all four bands, since
`MULDIV255(c, 255) = c`), and screen with an all-black overlay is the
identity on every fully opaque byte-range image; on non-opaque images
screen forces alpha to 255 (claim C10), so only the opaque case can be an
identity. -/
def OverlayIdentitySpec (img : Img) : Prop :=
  Img.eqOn (overlay_blend img 255 255 255 "multiply") img ∧
  ((∀ x < img.w, ∀ y < img.h, (img.px x y).a = 255) →
    Img.eqOn (overlay_blend img 0 0 0 "screen") img)

/-- Claim C8 (amended): overlay-blend with mode `multiply` and overlay
`#FFFFFF` returns the source unchanged, and overlay-blend with mode
`screen` and overlay `#000000` returns the source unchanged whenever the
source is fully opaque. -/
theorem overlay_blend_identities (img : Img) (hv : img.valid) :
    OverlayIdentitySpec img := by
  constructor
  · refine ⟨rfl, rfl, fun x hx y hy => ?_⟩
    obtain ⟨h1, h2, h3, h4⟩ := hv x hx y hy
    show chop_multiply (img.px x y) (solidPx 255 255 255) = img.px x y
    unfold chop_multiply solidPx
    rw [muldiv255_255 _ h1, muldiv255_255 _ h2, muldiv255_255 _ h3, muldiv255_255 _ h4]
  · intro hop
    refine ⟨rfl, rfl, fun x hx y hy => ?_⟩
    obtain ⟨h1, h2, h3, -⟩ := hv x hx y hy
    have ha := hop x hx y hy
    show chop_screen (img.px x y) (solidPx 0 0 0) = img.px x y
    have hres : img.px x y =
        ⟨(img.px x y).r, (img.px x y).g, (img.px x y).b, 255⟩ := by rw [← ha]
    calc chop_screen (img.px x y) (solidPx 0 0 0)
        = chop_screen ⟨(img.px x y).r, (img.px x y).g, (img.px x y).b, 255⟩
            (solidPx 0 0 0) := by rw [← hres]
      _ = ⟨(img.px x y).r, (img.px x y).g, (img.px x y).b, 255⟩ :=
            chop_screen_black _ _ _ h1 h2 h3
      _ = img.px x y := hres.symm

/-- Witness for claim C8 at a concrete fully opaque one-pixel image. -/
theorem overlay_blend_identities_witness :
    (⟨1, 1, fun _ _ => ⟨5, 6, 7, 255⟩⟩ : Img).valid ∧
    OverlayIdentitySpec ⟨1, 1, fun _ _ => ⟨5, 6, 7, 255⟩⟩ :=
  ⟨by unfold Img.valid Pixel.valid; decide,
    overlay_blend_identities _ (by unfold Img.valid Pixel.valid; decide)⟩

/-- Conclusion of claim C10: for any overlay color, multiply mode
preserves each pixel's alpha exactly, while any other mode string
(\"screen\" or the default fallback) makes every output pixel fully
opaque. -/
def OverlayAlphaSpec (img : Img) : Prop :=
  ∀ cr cg cb : ℕ, ∀ mode : String, ∀ x < img.w, ∀ y < img.h,
    ((overlay_blend img cr cg cb "multiply").px x y).a = (img.px x y).a ∧
    (mode ≠ "multiply" → ((overlay_blend img cr cg cb mode).px x y).a = 255)

/-- Claim C10: `overlay_blend` in multiply mode preserves source alpha
exactly (the opaque overlay contributes 255 and `MULDIV255(a,255) = a`);
in screen mode — including the default fallback branch — every output
pixel's alpha is 255, discarding source transparency. -/
theorem overlay_blend_alpha (img : Img) (hv : img.valid) : OverlayAlphaSpec img := by
  intro cr cg cb mode x hx y hy
  obtain ⟨-, -, -, h4⟩ := hv x hx y hy
  constructor
  · show (chop_multiply (img.px x y) (solidPx cr cg cb)).a = (img.px x y).a
    unfold chop_multiply solidPx
    exact muldiv255_255 _ h4
  · intro hmode
    have hscr : ((overlay_blend img cr cg cb mode).px x y) =
        chop_screen (img.px x y) (solidPx cr cg cb) := by
      unfold overlay_blend
      by_cases h1 : mode = "screen"
      · rw [if_pos h1]
      · rw [if_neg h1, if_neg hmode]
    rw [hscr]
    show 255 - muldiv255 (255 - (img.px x y).a) (255 - 255) = 255
    rw [muldiv255_zero_right]

/-- Witness for claim C10 at a concrete one-pixel image with a
semi-transparent pixel. -/
theorem overlay_blend_alpha_witness :
    (⟨1, 1, fun _ _ => ⟨1, 2, 3, 77⟩⟩ : Img).valid ∧
    OverlayAlphaSpec ⟨1, 1, fun _ _ => ⟨1, 2, 3, 77⟩⟩ :=
  ⟨by unfold Img.valid Pixel.valid; decide,
    overlay_blend_alpha _ (by unfold Img.valid Pixel.valid; decide)⟩

/-- Pillow's ITU-R 601-2 grayscale conversion `convert("L")` as used by
`ImageOps.grayscale`: `L = (R*19595 + G*38470 + B*7471) >> 16`. -/
def grayscaleL (p : Pixel) : ℕ := (p.r * 19595 + p.g * 38470 + p.b * 7471) / 65536

/-- One channel of the lookup table built by `ImageOps.colorize` with the
default black/white points `0`/`255` and no midpoint: gray level `g` maps
to `black + g * (white - black) // 255` for `g < 255` (Python floor
division on ints, hence `Int.fdiv`) and to `white` at `g = 255`. -/
def colorizeChannel (blackc whitec g : ℕ) : ℕ :=
  if g < 255 then ((blackc : ℤ) + ((g : ℤ) * ((whitec : ℤ) - blackc)).fdiv 255).toNat
  else whitec

/-- The `grayscale_colorize` transform of `iconmaker.py`: desaturate to
grayscale, colorize black→dark color and white→light color, and reattach
the original alpha.  The two colors are given by their parsed bytes. -/
def grayscale_colorize (img : Img) (wr wg wb br bg bb : ℕ) : Img :=
  ⟨img.w, img.h, fun x y =>
    ⟨colorizeChannel br wr (grayscaleL (img.px x y)),
      colorizeChannel bg wg (grayscaleL (img.px x y)),
      colorizeChannel bb wb (grayscaleL (img.px x y)),
      (img.px x y).a⟩⟩

theorem colorizeChannel_self (c g : ℕ) : colorizeChannel c c g = c := by
  unfold colorizeChannel
  split_ifs
  · simp
  · rfl

/-- Conclusion of claim C9: with identical light and dark descriptors the
duotone output has the source dimensions, and every pixel carries exactly
that color in its RGB channels with the source alpha. -/
def DuotoneConstantSpec (img : Img) (cr cg cb : ℕ) : Prop :=
  (grayscale_colorize img cr cg cb cr cg cb).w = img.w ∧
  (grayscale_colorize img cr cg cb cr cg cb).h = img.h ∧
  ∀ x < img.w, ∀ y < img.h,
    (grayscale_colorize img cr cg cb cr cg cb).px x y = ⟨cr, cg, cb, (img.px x y).a⟩

/-- Claim C9: `grayscale_colorize` with identical light and dark colors
yields the same single RGB color at every pixel, regardless of the source
content, with alpha preserved — the interpolation table is constant when
both endpoints coincide. -/
theorem grayscale_colorize_constant (img : Img) (cr cg cb : ℕ) :
    DuotoneConstantSpec img cr cg cb := by
  refine ⟨rfl, rfl, fun x hx y hy => ?_⟩
  show (⟨colorizeChannel cr cr _, colorizeChannel cg cg _, colorizeChannel cb cb _,
    (img.px x y).a⟩ : Pixel) = _
  rw [colorizeChannel_self, colorizeChannel_self, colorizeChannel_self]

/-- Dimensions chosen by `resize_and_center_512`: when `w > h` the new
width is 512 and the new height is `int(h * (512.0 / w))`; otherwise the
new height is 512 and the new width is `int(w * (512.0 / h))`. -/
def resizeDims (w h : ℕ) : ℕ × ℕ :=
  if w > h then (512, (pyInt ((h : ℚ) * (512 / (w : ℚ)))).toNat)
  else ((pyInt ((w : ℚ) * (512 / (h : ℚ)))).toNat, 512)

/-- Masked paste of a source pixel over a destination pixel, per Pillow's
`BLEND` macro in `Paste.c` with the source's own alpha band as the mask
(the call `canvas.paste(resized, (x, y), resized)`):
every band is `MULDIV255(dst, 255 - mask) + MULDIV255(src, mask)`. -/
def pasteBlendPx (dst src : Pixel) : Pixel :=
  ⟨muldiv255 dst.r (255 - src.a) + muldiv255 src.r src.a,
    muldiv255 dst.g (255 - src.a) + muldiv255 src.g src.a,
    muldiv255 dst.b (255 - src.a) + muldiv255 src.b src.a,
    muldiv255 dst.a (255 - src.a) + muldiv255 src.a src.a⟩

/-- The resized copy used by `resize_and_center_512`.  Pillow's
`Image.resize` returns an unchanged copy when the requested size equals
the current size; genuine LANCZOS resampling is external to this
repository and is kept abstract as the `resample` parameter. -/
def resizedImg (resample : Img → ℕ → ℕ → Img) (img : Img) : Img :=
  if img.w = (resizeDims img.w img.h).1 ∧ img.h = (resizeDims img.w img.h).2 then img
  else resample img (resizeDims img.w img.h).1 (resizeDims img.w img.h).2

/-- Centering offsets `(512 - new_dim) // 2` of `resize_and_center_512`
(the new dimensions never exceed 512, so natural floor division agrees
with Python's). -/
def centerOffset (n : ℕ) : ℕ := (512 - n) / 2

/-- The `resize_and_center_512` function of `iconmaker.py`: compute the
new dimensions, resample (abstract except for the same-size identity),
create a fully transparent 512×512 canvas, and paste the resized copy
centered using its own alpha as the mask. -/
def resize_and_center_512 (resample : Img → ℕ → ℕ → Img) (img : Img) : Img :=
  ⟨512, 512, fun x y =>
    if centerOffset (resizeDims img.w img.h).1 ≤ x ∧
        x < centerOffset (resizeDims img.w img.h).1 + (resizeDims img.w img.h).1 ∧
        centerOffset (resizeDims img.w img.h).2 ≤ y ∧
        y < centerOffset (resizeDims img.w img.h).2 + (resizeDims img.w img.h).2 then
      pasteBlendPx transparentPx
        ((resizedImg resample img).px (x - centerOffset (resizeDims img.w img.h).1)
          (y - centerOffset (resizeDims img.w img.h).2))
    else transparentPx⟩

/-- A placeholder resampler used to instantiate counterexamples and
witnesses; it is never consulted when the source is already 512×512. -/
def dummyResample : Img → ℕ → ℕ → Img :=
  fun _ nw nh => ⟨nw, nh, fun _ _ => transparentPx⟩

/-- Dimension facts for claim C3: both chosen dimensions are at most 512,
their maximum is exactly 512, and the shorter dimension is within one
pixel of exact aspect preservation (`|new_h * w - h * new_w| < max w h`). -/
theorem resizeDims_spec (w h : ℕ) (hw : 1 ≤ w) (hh : 1 ≤ h) :
    (resizeDims w h).1 ≤ 512 ∧ (resizeDims w h).2 ≤ 512 ∧
    max (resizeDims w h).1 (resizeDims w h).2 = 512 ∧
    (((resizeDims w h).2 : ℤ) * w - h * (resizeDims w h).1).natAbs < max w h := by
  unfold resizeDims
  split_ifs with hgt
  · dsimp only
    have hw0 : (0 : ℚ) < w := by exact_mod_cast lt_of_lt_of_le zero_lt_one hw
    set q : ℚ := (h : ℚ) * (512 / w) with hq
    have hq0 : 0 ≤ q := by positivity
    have hpy : pyInt q = ⌊q⌋ := pyInt_of_nonneg _ hq0
    have hfl0 : 0 ≤ ⌊q⌋ := Int.floor_nonneg.mpr hq0
    have hcast : ((⌊q⌋.toNat : ℚ)) = ((⌊q⌋ : ℤ) : ℚ) := by
      exact_mod_cast congrArg (fun z : ℤ => (z : ℚ)) (Int.toNat_of_nonneg hfl0)
    have hle : ((⌊q⌋.toNat : ℚ)) ≤ q := by rw [hcast]; exact Int.floor_le q
    have hlt1 : q < (⌊q⌋.toNat : ℚ) + 1 := by rw [hcast]; exact Int.lt_floor_add_one q
    have hqlt : q < 512 := by
      have hhw : (h : ℚ) < w := by exact_mod_cast hgt
      have hdiv : (h : ℚ) / w < 1 := by rw [div_lt_one hw0]; exact hhw
      have : q = 512 * ((h : ℚ) / w) := by rw [hq]; ring
      rw [this]
      nlinarith
    have h2le : (pyInt q).toNat ≤ 512 := by
      rw [hpy]
      have : ((⌊q⌋.toNat : ℚ)) < 512 := lt_of_le_of_lt hle hqlt
      have h512 : ⌊q⌋.toNat < 512 := by exact_mod_cast this
      omega
    refine ⟨le_refl _, h2le, max_eq_left h2le, ?_⟩
    have hqw : q * w = 512 * h := by
      rw [hq]
      field_simp
      ring
    have hup : ((⌊q⌋.toNat : ℚ)) * w ≤ 512 * h := by
      calc ((⌊q⌋.toNat : ℚ)) * w ≤ q * w := mul_le_mul_of_nonneg_right hle hw0.le
        _ = 512 * h := hqw
    have hdown : (512 : ℚ) * h < ((⌊q⌋.toNat : ℚ)) * w + w := by
      calc (512 : ℚ) * h = q * w := hqw.symm
        _ < (((⌊q⌋.toNat : ℚ)) + 1) * w := mul_lt_mul_of_pos_right hlt1 hw0
        _ = ((⌊q⌋.toNat : ℚ)) * w + w := by ring
    have hupZ : ((⌊q⌋.toNat : ℤ)) * w ≤ 512 * h := by exact_mod_cast hup
    have hdownZ : (512 : ℤ) * h < ((⌊q⌋.toNat : ℤ)) * w + w := by exact_mod_cast hdown
    have hmaxw : max w h = w := max_eq_left (le_of_lt hgt)
    rw [hpy, hmaxw]
    omega
  · dsimp only
    have hwh : w ≤ h := le_of_not_lt hgt
    have hh0 : (0 : ℚ) < h := by exact_mod_cast lt_of_lt_of_le zero_lt_one hh
    set q : ℚ := (w : ℚ) * (512 / h) with hq
    have hq0 : 0 ≤ q := by positivity
    have hpy : pyInt q = ⌊q⌋ := pyInt_of_nonneg _ hq0
    have hfl0 : 0 ≤ ⌊q⌋ := Int.floor_nonneg.mpr hq0
    have hcast : ((⌊q⌋.toNat : ℚ)) = ((⌊q⌋ : ℤ) : ℚ) := by
      exact_mod_cast congrArg (fun z : ℤ => (z : ℚ)) (Int.toNat_of_nonneg hfl0)
    have hle : ((⌊q⌋.toNat : ℚ)) ≤ q := by rw [hcast]; exact Int.floor_le q
    have hlt1 : q < (⌊q⌋.toNat : ℚ) + 1 := by rw [hcast]; exact Int.lt_floor_add_one q
    have hqle : q ≤ 512 := by
      have hhw : (w : ℚ) ≤ h := by exact_mod_cast hwh
      have hdiv : (w : ℚ) / h ≤ 1 := by rw [div_le_one hh0]; exact hhw
      have : q = 512 * ((w : ℚ) / h) := by rw [hq]; ring
      rw [this]
      nlinarith
    have h1le : (pyInt q).toNat ≤ 512 := by
      rw [hpy]
      have : ((⌊q⌋.toNat : ℚ)) ≤ 512 := le_trans hle hqle
      exact_mod_cast this
    refine ⟨h1le, le_refl _, max_eq_right h1le, ?_⟩
    have hqh : q * h = 512 * w := by
      rw [hq]
      field_simp
      ring
    have hup : ((⌊q⌋.toNat : ℚ)) * h ≤ 512 * w := by
      calc ((⌊q⌋.toNat : ℚ)) * h ≤ q * h := mul_le_mul_of_nonneg_right hle hh0.le
        _ = 512 * w := hqh
    have hdown : (512 : ℚ) * w < ((⌊q⌋.toNat : ℚ)) * h + h := by
      calc (512 : ℚ) * w = q * h := hqh.symm
        _ < (((⌊q⌋.toNat : ℚ)) + 1) * h := mul_lt_mul_of_pos_right hlt1 hh0
        _ = ((⌊q⌋.toNat : ℚ)) * h + h := by ring
    have hupZ : ((⌊q⌋.toNat : ℤ)) * h ≤ 512 * w := by exact_mod_cast hup
    have hdownZ : (512 : ℤ) * w < ((⌊q⌋.toNat : ℤ)) * h + h := by exact_mod_cast hdown
    have hupZ2 : (h : ℤ) * ((⌊q⌋.toNat : ℤ)) ≤ 512 * w := by
      rw [mul_comm]
      exact hupZ
    have hdownZ2 : (512 : ℤ) * w < (h : ℤ) * ((⌊q⌋.toNat : ℤ)) + h := by
      rw [mul_comm ((h : ℤ))]
      exact hdownZ
    have hmaxh : max w h = h := max_eq_right hwh
    rw [hpy, hmaxh]
    omega

/-- Conclusion of claim C3: the output canvas is 512×512; the chosen
dimensions have maximum exactly 512 and preserve the aspect ratio to
within one pixel on the shorter side; every canvas pixel outside the
centered `new_w × new_h` rectangle at offsets
`((512-new_w)//2, (512-new_h)//2)` is fully transparent; and inside the
rectangle the canvas holds the resized copy pasted over the transparent
canvas with its own alpha as the mask. -/
def ResizeGeometrySpec (resample : Img → ℕ → ℕ → Img) (img : Img) : Prop :=
  (resize_and_center_512 resample img).w = 512 ∧
  (resize_and_center_512 resample img).h = 512 ∧
  max (resizeDims img.w img.h).1 (resizeDims img.w img.h).2 = 512 ∧
  (((resizeDims img.w img.h).2 : ℤ) * img.w - img.h * (resizeDims img.w img.h).1).natAbs
    < max img.w img.h ∧
  (∀ x < 512, ∀ y < 512,
    ¬ (centerOffset (resizeDims img.w img.h).1 ≤ x ∧
        x < centerOffset (resizeDims img.w img.h).1 + (resizeDims img.w img.h).1 ∧
        centerOffset (resizeDims img.w img.h).2 ≤ y ∧
        y < centerOffset (resizeDims img.w img.h).2 + (resizeDims img.w img.h).2) →
    (resize_and_center_512 resample img).px x y = transparentPx) ∧
  (∀ i < (resizeDims img.w img.h).1, ∀ j < (resizeDims img.w img.h).2,
    (resize_and_center_512 resample img).px
        (centerOffset (resizeDims img.w img.h).1 + i)
        (centerOffset (resizeDims img.w img.h).2 + j) =
      pasteBlendPx transparentPx ((resizedImg resample img).px i j))

/-- Claim C3: for every source with positive dimensions,
`resize_and_center_512` scales so that the larger dimension becomes 512
with the aspect ratio preserved to within one pixel of rounding, and
pastes the resized copy centered at offsets `((512-new_w)//2,
(512-new_h)//2)` on a fully transparent 512×512 canvas. -/
theorem resize_and_center_geometry (resample : Img → ℕ → ℕ → Img) (img : Img)
    (hw : 1 ≤ img.w) (hh : 1 ≤ img.h) : ResizeGeometrySpec resample img := by
  obtain ⟨h1, h2, h3, h4⟩ := resizeDims_spec img.w img.h hw hh
  refine ⟨rfl, rfl, h3, h4, ?_, ?_⟩
  · intro x hx y hy hout
    show (if _ then _ else _) = transparentPx
    rw [if_neg hout]
  · intro i hi j hj
    show (if _ then _ else _) = _
    rw [if_pos ⟨Nat.le_add_right _ _, by omega, Nat.le_add_right _ _, by omega⟩]
    simp only [Nat.add_sub_cancel_left]

/-- Witness for claim C3 at a concrete 2×1 image and a concrete
resampler that honors the requested size. -/
theorem resize_and_center_geometry_witness :
    1 ≤ (⟨2, 1, fun _ _ => ⟨9, 9, 9, 255⟩⟩ : Img).w ∧
    1 ≤ (⟨2, 1, fun _ _ => ⟨9, 9, 9, 255⟩⟩ : Img).h ∧
    ResizeGeometrySpec dummyResample ⟨2, 1, fun _ _ => ⟨9, 9, 9, 255⟩⟩ :=
  ⟨by decide, by decide,
    resize_and_center_geometry dummyResample _ (by decide) (by decide)⟩

theorem resizeDims_512 : resizeDims 512 512 = (512, 512) := by
  unfold resizeDims
  rw [if_neg (lt_irrefl 512)]
  have hq : ((512 : ℕ) : ℚ) * (512 / ((512 : ℕ) : ℚ)) = 512 := by norm_num
  rw [hq, pyInt_of_nonneg _ (by norm_num)]
  norm_num
  decide

/-- A 512×512 buffer with an opaque green pixel at the center, a fully
transparent pixel carrying hidden nonzero RGB data at the origin, and
fully transparent zero pixels everywhere else. -/
def c2img : Img :=
  ⟨512, 512, fun x y =>
    if x = 256 ∧ y = 256 then ⟨0, 255, 0, 255⟩
    else if x = 0 ∧ y = 0 then ⟨255, 0, 0, 0⟩
    else transparentPx⟩

/-- Every pixel other than the one at `(cx, cy)` is fully transparent:
the buffer is transparent padding around a single centered content pixel. -/
def Img.contentOnlyAt (img : Img) (cx cy : ℕ) : Prop :=
  ∀ x < img.w, ∀ y < img.h, ¬ (x = cx ∧ y = cy) → (img.px x y).a = 0

/-- Counterexample to claim C2 as stated: `c2img` is a 512×512 buffer
with transparent padding and a single centered opaque content pixel, yet
`resize_and_center_512` does not return it unchanged — pasting with the
alpha mask replaces the fully transparent pixel `(255, 0, 0, 0)` at the
origin by `(0, 0, 0, 0)`, because a zero mask keeps the blank canvas. -/
theorem resize_center_not_idempotent :
    c2img.w = 512 ∧ c2img.h = 512 ∧ Img.contentOnlyAt c2img 256 256 ∧
    (c2img.px 256 256).a = 255 ∧
    ¬ Img.eqOn (resize_and_center_512 dummyResample c2img) c2img := by
  refine ⟨rfl, rfl, ?_, rfl, ?_⟩
  · intro x hx y hy hne
    show (c2img.px x y).a = 0
    unfold c2img
    dsimp only
    rw [if_neg hne]
    split_ifs <;> rfl
  · intro heq
    obtain ⟨-, -, hpx⟩ := heq
    have h00 := hpx 0 (by decide) 0 (by decide)
    have h1 : resizeDims c2img.w c2img.h = (512, 512) := resizeDims_512
    have hers : resizedImg dummyResample c2img = c2img := by
      unfold resizedImg
      rw [h1]
      dsimp only
      rw [if_pos ⟨rfl, rfl⟩]
    have hL : (resize_and_center_512 dummyResample c2img).px 0 0 = transparentPx := by
      show (if centerOffset (resizeDims c2img.w c2img.h).1 ≤ 0 ∧
          0 < centerOffset (resizeDims c2img.w c2img.h).1 + (resizeDims c2img.w c2img.h).1 ∧
          centerOffset (resizeDims c2img.w c2img.h).2 ≤ 0 ∧
          0 < centerOffset (resizeDims c2img.w c2img.h).2 + (resizeDims c2img.w c2img.h).2 then
          pasteBlendPx transparentPx
            ((resizedImg dummyResample c2img).px
              (0 - centerOffset (resizeDims c2img.w c2img.h).1)
              (0 - centerOffset (resizeDims c2img.w c2img.h).2))
        else transparentPx) = transparentPx
      rw [h1, hers]
      dsimp only
      have hco : centerOffset 512 = 0 := rfl
      rw [hco]
      rw [if_pos ⟨le_refl 0, by omega, le_refl 0, by omega⟩]
      decide
    rw [hL] at h00
    exact absurd h00 (by decide)

/-- The hypothesis under which normalization is the identity: a 512×512
buffer in which every pixel is either fully opaque with byte-range
channels, or exactly the zero pixel `(0, 0, 0, 0)`. -/
def BinaryAlphaNormalized (img : Img) : Prop :=
  img.w = 512 ∧ img.h = 512 ∧
  ∀ x < img.w, ∀ y < img.h,
    ((img.px x y).a = 255 ∧ (img.px x y).valid) ∨ img.px x y = transparentPx

/-- Pasting a fully opaque byte pixel over the transparent canvas pixel
returns it unchanged: the mask is 255, so the destination contributes
`MULDIV255(0, 0) = 0` and the source contributes `MULDIV255(c, 255) = c`. -/
theorem pasteBlend_opaque (p : Pixel) (hp : p.valid) (ha : p.a = 255) :
    pasteBlendPx transparentPx p = p := by
  obtain ⟨h1, h2, h3, -⟩ := hp
  unfold pasteBlendPx transparentPx
  rw [ha]
  simp only [Nat.sub_self, muldiv255_zero_right, muldiv255_zero_left, Nat.zero_add]
  rw [muldiv255_255 p.r h1, muldiv255_255 p.g h2, muldiv255_255 p.b h3,
    muldiv255_255 255 (le_refl _)]
  rw [← ha]

/-- Claim C2 (amended): `resize_and_center_512` returns a buffer equal to
its input for every 512×512 buffer whose pixels are each either fully
opaque or exactly `(0,0,0,0)` — the scale factor is 1, the offsets are 0,
the resized copy is the unchanged input, and the masked paste restores
each such pixel.  (Buffers containing semi-transparent pixels, or hidden
RGB data under zero alpha, are altered; see the counterexample.) -/
theorem resize_center_idempotent_binary (resample : Img → ℕ → ℕ → Img) (img : Img)
    (hbin : BinaryAlphaNormalized img) :
    Img.eqOn (resize_and_center_512 resample img) img := by
  obtain ⟨hw, hh, hpx⟩ := hbin
  have hers : resizedImg resample img = img := by
    unfold resizedImg
    rw [hw, hh, resizeDims_512]
    dsimp only
    rw [if_pos ⟨rfl, rfl⟩]
  refine ⟨by show (512 : ℕ) = img.w; exact hw.symm,
    by show (512 : ℕ) = img.h; exact hh.symm, fun x hx y hy => ?_⟩
  have hx5 : x < 512 := hx
  have hy5 : y < 512 := hy
  show (if centerOffset (resizeDims img.w img.h).1 ≤ x ∧
      x < centerOffset (resizeDims img.w img.h).1 + (resizeDims img.w img.h).1 ∧
      centerOffset (resizeDims img.w img.h).2 ≤ y ∧
      y < centerOffset (resizeDims img.w img.h).2 + (resizeDims img.w img.h).2 then
      pasteBlendPx transparentPx
        ((resizedImg resample img).px (x - centerOffset (resizeDims img.w img.h).1)
          (y - centerOffset (resizeDims img.w img.h).2))
    else transparentPx) = img.px x y
  rw [hw, hh, resizeDims_512, hers]
  dsimp only
  have hc0 : centerOffset 512 = 0 := rfl
  rw [hc0]
  rw [if_pos ⟨Nat.zero_le _, by omega, Nat.zero_le _, by omega⟩]
  simp only [Nat.sub_zero]
  rcases hpx x (by rw [hw]; exact hx5) y (by rw [hh]; exact hy5) with ⟨ha, hv⟩ | hzero
  · exact pasteBlend_opaque _ hv ha
  · rw [hzero]
    decide

/-- A fully transparent 512×512 buffer for the C2 witness. -/
def c2wit : Img := ⟨512, 512, fun _ _ => transparentPx⟩

/-- Witness for claim C2 (amended) at a concrete 512×512 buffer. -/
theorem resize_center_idempotent_binary_witness :
    BinaryAlphaNormalized c2wit ∧
    Img.eqOn (resize_and_center_512 dummyResample c2wit) c2wit :=
  ⟨⟨rfl, rfl, fun _ _ _ _ => Or.inr rfl⟩,
    resize_center_idempotent_binary dummyResample c2wit
      ⟨rfl, rfl, fun _ _ _ _ => Or.inr rfl⟩⟩

/-- A read-only filesystem snapshot: each path maps to a file, where a
file at a descriptor path either parses as a string-valued property-list
dictionary (`some entries`) or is malformed so that `plistlib.load`
raises (`none`).  Only existence matters for resource files.  Paths not
in the list do not exist (`os.path.isfile` is false). -/
abbrev FS := List (String × Option (List (String × String)))

/-- The `os.path.isfile` probe against the snapshot. -/
def isfile (fs : FS) (p : String) : Bool := (fs.lookup p).isSome

/-- Python `str.lower` (the inputs of interest are ASCII). -/
def lowerStr (s : String) : String := String.mk (s.data.map Char.toLower)

/-- Python `str.endswith`. -/
def endsWithStr (s suf : String) : Bool := suf.data.isSuffixOf s.data

/-- Suffix normalization in `pull_app_icon`: append `.icns` unless the
name already ends with it, compared case-insensitively
(`icon_file.lower().endswith(".icns")`). -/
def fixIcnsSuffix (name : String) : String :=
  if endsWithStr (lowerStr name) ".icns" then name else name ++ ".icns"

/-- The `pull_app_icon` locator of `iconmaker.py`.  `os.path.join` is
`/`-concatenation; `plistlib.load` on a malformed descriptor raises,
modelled as `Except.error` (the Python code has no handler around it);
`plist_data.get("CFBundleIconFile")` yields `none` when absent; the
`if not icon_file` test also treats the empty string as missing. -/
def pull_app_icon (fs : FS) (app_path : String) : Except Unit (Option String) :=
  match fs.lookup (app_path ++ "/Contents/Info.plist") with
  | none => .ok none
  | some none => .error ()
  | some (some plist_data) =>
    match plist_data.lookup "CFBundleIconFile" with
    | none => .ok none
    | some icon_file =>
      if icon_file = "" then .ok none
      else
        if isfile fs (app_path ++ "/Contents/Resources/" ++ fixIcnsSuffix icon_file) then
          .ok (some (app_path ++ "/Contents/Resources/" ++ fixIcnsSuffix icon_file))
        else .ok none

/-- The resource path `pull_app_icon` constructs when the descriptor
exists, parses, and names a nonempty icon file. -/
def candidatePath (fs : FS) (app_path : String) : Option String :=
  match fs.lookup (app_path ++ "/Contents/Info.plist") with
  | some (some plist_data) =>
    match plist_data.lookup "CFBundleIconFile" with
    | some icon_file =>
      if icon_file = "" then none
      else some (app_path ++ "/Contents/Resources/" ++ fixIcnsSuffix icon_file)
    | none => none
  | _ => none

/-- The bundle's descriptor file, when present, is well-formed (parses as
a property list), so that the locator's unguarded `plistlib.load` does
not raise. -/
def FS.plistOk (fs : FS) (app_path : String) : Prop :=
  fs.lookup (app_path ++ "/Contents/Info.plist") ≠ some none

/-- Conclusion of claim C4: the locator answers not-found exactly when
the descriptor file is absent, or the parsed descriptor lacks a (nonempty)
`CFBundleIconFile` value, or the constructed resource path does not exist;
and when the constructed path exists it is returned. -/
def LocatorSpec (fs : FS) (app_path : String) : Prop :=
  (pull_app_icon fs app_path = .ok none ↔
    (isfile fs (app_path ++ "/Contents/Info.plist") = false ∨
      (∃ d, fs.lookup (app_path ++ "/Contents/Info.plist") = some (some d) ∧
        (d.lookup "CFBundleIconFile" = none ∨ d.lookup "CFBundleIconFile" = some "")) ∨
      (∃ p, candidatePath fs app_path = some p ∧ isfile fs p = false))) ∧
  ∀ p, candidatePath fs app_path = some p → isfile fs p = true →
    pull_app_icon fs app_path = .ok (some p)

/-- Claim C4: for every bundle path whose descriptor (if present) parses
— the case the claim's own wording presupposes by speaking of "the parsed
descriptor" — `pull_app_icon` returns `None` in exactly the three listed
cases and otherwise returns the constructed resource path. -/
theorem pull_app_icon_cases (fs : FS) (app_path : String)
    (hwf : FS.plistOk fs app_path) : LocatorSpec fs app_path := by
  unfold LocatorSpec pull_app_icon candidatePath isfile FS.plistOk at *
  cases h1 : fs.lookup (app_path ++ "/Contents/Info.plist") with
  | none =>
    dsimp only
    refine ⟨⟨fun _ => Or.inl rfl, fun _ => rfl⟩, fun p hp => Option.noConfusion hp⟩
  | some d0 =>
    cases d0 with
    | none => exact absurd h1 hwf
    | some d =>
      dsimp only
      cases h2 : d.lookup "CFBundleIconFile" with
      | none =>
        dsimp only
        refine ⟨⟨fun _ => Or.inr (Or.inl ⟨d, rfl, Or.inl h2⟩), fun _ => rfl⟩,
          fun p hp => Option.noConfusion hp⟩
      | some n =>
        dsimp only
        by_cases hn : n = ""
        · subst hn
          rw [if_pos rfl, if_pos rfl]
          refine ⟨⟨fun _ => Or.inr (Or.inl ⟨d, rfl, Or.inr h2⟩), fun _ => rfl⟩,
            fun p hp => Option.noConfusion hp⟩
        · rw [if_neg hn, if_neg hn]
          by_cases hf : (fs.lookup (app_path ++ "/Contents/Resources/" ++
              fixIcnsSuffix n)).isSome = true
          · rw [hf, if_pos rfl]
            constructor
            · constructor
              · intro hcon
                exact absurd hcon (by simp)
              · intro hr
                rcases hr with h | ⟨d2, hd2, hk⟩ | ⟨p, hp, hfp⟩
                · exact absurd h (by simp)
                · have hdd : d = d2 := by
                    injection hd2 with h3
                    injection h3
                  subst hdd
                  rcases hk with hk | hk
                  · rw [h2] at hk
                    exact Option.noConfusion hk
                  · rw [h2] at hk
                    injection hk with h4
                    exact absurd h4 hn
                · have hpp : app_path ++ "/Contents/Resources/" ++ fixIcnsSuffix n = p := by
                    injection hp
                  rw [← hpp] at hfp
                  rw [hf] at hfp
                  exact Bool.noConfusion hfp
            · intro p hp hfile
              have hpp : app_path ++ "/Contents/Resources/" ++ fixIcnsSuffix n = p := by
                injection hp
              rw [← hpp]
          · have hf0 : (fs.lookup (app_path ++ "/Contents/Resources/" ++
                fixIcnsSuffix n)).isSome = false := by
              rcases Bool.eq_false_or_eq_true
                ((fs.lookup (app_path ++ "/Contents/Resources/" ++
                  fixIcnsSuffix n)).isSome) with h | h
              · exact absurd h hf
              · exact h
            rw [hf0, if_neg (by simp)]
            constructor
            · constructor
              · intro _
                exact Or.inr (Or.inr ⟨app_path ++ "/Contents/Resources/" ++ fixIcnsSuffix n,
                  rfl, hf0⟩)
              · intro _
                rfl
            · intro p hp hfile
              have hpp : app_path ++ "/Contents/Resources/" ++ fixIcnsSuffix n = p := by
                injection hp
              rw [← hpp] at hfile
              rw [hf0] at hfile
              exact Bool.noConfusion hfile

/-- A snapshot with a complete, well-formed bundle for the C4 witness. -/
def fs4 : FS :=
  [ ("MyApp.app/Contents/Info.plist", some [ ("CFBundleIconFile", "Icon")]),
    ("MyApp.app/Contents/Resources/Icon.icns", some [])]

/-- Witness for claim C4 at a concrete snapshot and bundle path. -/
theorem pull_app_icon_cases_witness :
    FS.plistOk fs4 "MyApp.app" ∧ LocatorSpec fs4 "MyApp.app" :=
  ⟨by unfold FS.plistOk fs4; decide,
    pull_app_icon_cases fs4 "MyApp.app" (by unfold FS.plistOk fs4; decide)⟩

/-- A snapshot whose only bundle has a malformed descriptor file. -/
def fs5 : FS := [ ("Bad.app/Contents/Info.plist", none)]

/-- Counterexample to claim C5 as stated: when the descriptor file exists
but is malformed, `pull_app_icon` does not produce a path or a not-found
signal — the unguarded `plistlib.load` call raises and the exception
propagates to the caller. -/
theorem pull_app_icon_raises_on_malformed :
    pull_app_icon fs5 "Bad.app" = .error () := rfl

/-- Helper shared by the error-handling claims: a well-formed (or absent)
descriptor means the locator completes without raising. -/
theorem pull_app_icon_no_error (fs : FS) (app_path : String)
    (hwf : FS.plistOk fs app_path) :
    ∃ o, pull_app_icon fs app_path = .ok o := by
  unfold pull_app_icon FS.plistOk at *
  cases h1 : fs.lookup (app_path ++ "/Contents/Info.plist") with
  | none => exact ⟨none, by simp⟩
  | some d0 =>
    cases d0 with
    | none => exact absurd h1 hwf
    | some d =>
      cases h2 : d.lookup "CFBundleIconFile" with
      | none => exact ⟨none, by simp [h2]⟩
      | some n =>
        by_cases hn : n = ""
        · subst hn
          exact ⟨none, by simp [h2]⟩
        · by_cases hf : isfile fs (app_path ++ "/Contents/Resources/" ++
              fixIcnsSuffix n) = true
          · exact ⟨some (app_path ++ "/Contents/Resources/" ++ fixIcnsSuffix n),
              by simp [h2, hn, hf]⟩
          · exact ⟨none, by simp [h2, hn, hf]⟩

/-- Claim C5 (amended): `pull_app_icon` never raises — its only outcomes
are a resolved path or a not-found signal — provided the descriptor file,
when it exists, is well-formed; a malformed descriptor makes the
unguarded `plistlib.load` raise to the caller. -/
theorem pull_app_icon_total_unless_malformed (fs : FS) (app_path : String)
    (hwf : FS.plistOk fs app_path) :
    ∃ o, pull_app_icon fs app_path = .ok o :=
  pull_app_icon_no_error fs app_path hwf

/-- Witness for claim C5 (amended) at a concrete snapshot. -/
theorem pull_app_icon_total_unless_malformed_witness :
    FS.plistOk fs4 "MyApp.app" ∧ ∃ o, pull_app_icon fs4 "MyApp.app" = .ok o :=
  ⟨by unfold FS.plistOk fs4; decide,
    pull_app_icon_total_unless_malformed fs4 "MyApp.app" (by unfold FS.plistOk fs4; decide)⟩

/-- Value of one hexadecimal digit, as `int(s, 16)` accepts them. -/
def hexDigitVal (c : Char) : Option ℕ :=
  if '0' ≤ c ∧ c ≤ '9' then some (c.toNat - '0'.toNat)
  else if 'a' ≤ c ∧ c ≤ 'f' then some (c.toNat - 'a'.toNat + 10)
  else if 'A' ≤ c ∧ c ≤ 'F' then some (c.toNat - 'A'.toNat + 10)
  else none

/-- Python `int(s, 16)` on a character slice: `none` models the
`ValueError` raised on an empty slice or any non-hex character.  (The
tolerance of `int` for surrounding whitespace and signs is not modelled;
the claims only distinguish parseable from unparseable descriptors.) -/
def int16? (s : List Char) : Option ℕ :=
  match s with
  | [] => none
  | _ => s.foldl (fun acc c =>
      match acc, hexDigitVal c with
      | some a, some d => some (a * 16 + d)
      | _, _ => none) (some 0)

/-- Python slice `s[i:j]` on the characters of a string. -/
def strSlice (s : String) (i j : ℕ) : List Char := (s.toList.drop i).take (j - i)

/-- The target-color parse at the top of `hue_shift_saturation`:
`int(target_hex[i:i+2], 16) for i in (1, 3, 5)`; the whole call raises —
modelled as `none` — unless all three slices parse to byte values. -/
def parseTargetHex (s : String) : Option (ℕ × ℕ × ℕ) :=
  match int16? (strSlice s 1 3), int16? (strSlice s 3 5), int16? (strSlice s 5 7) with
  | some r, some g, some bv => some (r, g, bv)
  | _, _, _ => none

/-- Console events of the single-file processing loop in `main`. -/
inductive Ev where
  | processing (path : String)
  | opened (path : String)
  | saved (path : String)
deriving DecidableEq, Repr

/-- The single-file loop of `main` for approach "1" (hue shift).  Each
batch item is an input path paired with the image `Image.open` yields, or
`none` when opening raises.  Per item the loop prints `Processing`, opens
the image — an open failure raises with no handler, aborting the whole
run — then calls `hue_shift_saturation`, whose first statement parses the
target hex and raises on a malformed descriptor, aborting the run; then
it normalizes and saves (the saved event carries the input path; encoding
is modelled as succeeding).  Returns the emitted events and whether the
run aborted with an uncaught exception. -/
def runSingle1 (target : String) (satM valM : ℚ) :
    List (String × Option Img) → List Ev × Bool
  | [] => ([], false)
  | (p, none) :: _ => ([Ev.processing p], true)
  | (p, some _) :: rest =>
    match parseTargetHex target with
    | none => ([Ev.processing p, Ev.opened p], true)
    | some _ =>
      let next := runSingle1 target satM valM rest
      (Ev.processing p :: Ev.opened p :: Ev.saved p :: next.1, next.2)

/-- A concrete opaque one-pixel image for the loop counterexamples. -/
def img1 : Img := ⟨1, 1, fun _ _ => ⟨1, 2, 3, 255⟩⟩

/-- Counterexample to claim C6 as stated: with the unparseable color
descriptor `#ZZZZZZ` and one input image, the hue-shift run opens and
starts processing the first image before the parse failure raises; the
error is not reported before per-image processing begins. -/
theorem bad_hex_processes_first_image :
    parseTargetHex "#ZZZZZZ" = none ∧
    (runSingle1 "#ZZZZZZ" 1 1 [ ("a.png", some img1)]).1 =
      [Ev.processing "a.png", Ev.opened "a.png"] ∧
    (runSingle1 "#ZZZZZZ" 1 1 [ ("a.png", some img1)]).2 = true := by
  refine ⟨by decide, ?_, ?_⟩ <;> decide

/-- Conclusion of claim C6 as amended: an unparseable color descriptor
makes the hue-shift run abort with an uncaught `ValueError` — raised when
the color is first used, on the first batch item, after that image has
been opened (or upon its open failure) — and no output is ever written. -/
def BadHexAbortSpec (target : String) (satM valM : ℚ)
    (items : List (String × Option Img)) : Prop :=
  (∀ p, Ev.saved p ∉ (runSingle1 target satM valM items).1) ∧
  (items ≠ [] → (runSingle1 target satM valM items).2 = true)

/-- Claim C6 (amended): for every run of the hue-shift single-file path
with an unparseable primary color descriptor, the run aborts with an
uncaught exception while handling the first item and writes no output;
the reported failure is the exception itself, not a configuration check
performed before processing begins. -/
theorem bad_hex_aborts (target : String) (satM valM : ℚ)
    (items : List (String × Option Img))
    (hbad : parseTargetHex target = none) :
    BadHexAbortSpec target satM valM items := by
  cases items with
  | nil =>
    exact ⟨fun p h => absurd h (by simp [runSingle1]), fun h => absurd rfl h⟩
  | cons it rest =>
    obtain ⟨p, o⟩ := it
    cases o with
    | none =>
      constructor
      · intro p' h
        simp [runSingle1] at h
      · intro _
        rfl
    | some im =>
      constructor
      · intro p' h
        simp [runSingle1, hbad] at h
      · intro _
        simp [runSingle1, hbad]

/-- Witness for claim C6 at a concrete unparseable descriptor and batch. -/
theorem bad_hex_aborts_witness :
    parseTargetHex "#QQQQQQ" = none ∧
    BadHexAbortSpec "#QQQQQQ" 1 1 [ ("a.png", some img1)] :=
  ⟨by decide, bad_hex_aborts "#QQQQQQ" 1 1 _ (by decide)⟩

/-- The environment the bundle batch runs against: a filesystem snapshot
for the locator, the outcome of `Image.open` per path, and whether
`save` succeeds per output path. -/
structure Env where
  fs : FS
  openImg : String → Option Img
  saveOk : String → Bool

/-- Console events of the bundle batch loop `recolor_app_icons`. -/
inductive BEv where
  | skippedNonApp (path : String)
  | noIcon (path : String)
  | openFailed (path : String)
  | saved (outPath : String)
  | saveFailed (outPath : String)
deriving DecidableEq, Repr

/-- Splitting a character list at `/` separators. -/
def splitSlash : List Char → List Char → List (List Char)
  | [], acc => [acc.reverse]
  | c :: rest, acc =>
    if c = '/' then acc.reverse :: splitSlash rest [] else splitSlash rest (c :: acc)

/-- The final path component, as `os.path.basename` returns it. -/
def basename (p : String) : String := String.mk ((splitSlash p.data []).getLastD [])

/-- Stem of `os.path.splitext`: drop the extension after the last dot,
except that a name whose characters before that dot are all dots (such as
a bare `.app`) keeps its full name. -/
def splitextBase (s : String) : String :=
  let cs := s.toList
  match ((List.range cs.length).filter (fun i => cs.getD i ' ' = '.')).getLast? with
  | none => s
  | some i => if (cs.take i).all (fun c => c = '.') then s else String.mk (cs.take i)

/-- The `recolor_app_icons` batch loop of `iconmaker.py`.  Per bundle:
skip non-`.app` paths; locate the icon — a malformed descriptor makes the
unguarded `plistlib.load` inside `pull_app_icon` raise, aborting the
whole batch (`Except.error`); a missing icon is reported and skipped; an
`Image.open` failure is caught, reported and skipped; otherwise the icon
is recolored, normalized and saved to
`output_dir/<bundle stem>.icns`, with a save failure caught and
reported.  The recolor and normalize steps do not affect control flow and
their pixel content is dealt with by the transform theorems. -/
def recolor_app_icons (env : Env) (output_dir : String) :
    List String → Except Unit (List BEv)
  | [] => .ok []
  | app_path :: rest =>
    if endsWithStr (lowerStr app_path) ".app" = false then
      (recolor_app_icons env output_dir rest).map
        (fun evs => BEv.skippedNonApp app_path :: evs)
    else
      match pull_app_icon env.fs app_path with
      | .error _ => .error ()
      | .ok none =>
        (recolor_app_icons env output_dir rest).map
          (fun evs => BEv.noIcon app_path :: evs)
      | .ok (some icon_path) =>
        match env.openImg icon_path with
        | none =>
          (recolor_app_icons env output_dir rest).map
            (fun evs => BEv.openFailed app_path :: evs)
        | some _ =>
          (recolor_app_icons env output_dir rest).map
            (fun evs =>
              (if env.saveOk (output_dir ++ "/" ++ splitextBase (basename app_path)
                  ++ ".icns") then
                BEv.saved (output_dir ++ "/" ++ splitextBase (basename app_path)
                  ++ ".icns")
              else
                BEv.saveFailed (output_dir ++ "/" ++ splitextBase (basename app_path)
                  ++ ".icns")) :: evs)

/-- The event a single bundle produces, independently of every other
bundle in the batch.  The `.error` case of the locator never occurs for a
well-formed descriptor; its value here is arbitrary. -/
def itemEvent (env : Env) (output_dir : String) (app_path : String) : BEv :=
  if endsWithStr (lowerStr app_path) ".app" = false then BEv.skippedNonApp app_path
  else
    match pull_app_icon env.fs app_path with
    | .error _ => BEv.noIcon app_path
    | .ok none => BEv.noIcon app_path
    | .ok (some icon_path) =>
      match env.openImg icon_path with
      | none => BEv.openFailed app_path
      | some _ =>
        if env.saveOk (output_dir ++ "/" ++ splitextBase (basename app_path)
            ++ ".icns") then
          BEv.saved (output_dir ++ "/" ++ splitextBase (basename app_path) ++ ".icns")
        else
          BEv.saveFailed (output_dir ++ "/" ++ splitextBase (basename app_path)
            ++ ".icns")

/-- Every bundle in the batch has a well-formed descriptor, when present. -/
def Env.allPlistOk (env : Env) (apps : List String) : Prop :=
  ∀ a ∈ apps, FS.plistOk env.fs a

/-- Conclusion of claim C7: the bundle batch never aborts when the
descriptors are well-formed — its result is exactly one reported event
per item, each computed independently of the other items, so an open
failure on one bundle leaves the remaining bundles processed — whereas
the single-file loop aborts on the first open failure, leaving the
remaining images unprocessed. -/
def OpenFailureSpec : Prop :=
  (∀ (env : Env) (output_dir : String) (apps : List String),
    Env.allPlistOk env apps →
    recolor_app_icons env output_dir apps = .ok (apps.map (itemEvent env output_dir))) ∧
  (∀ (target : String) (satM valM : ℚ) (p : String) (rest : List (String × Option Img)),
    runSingle1 target satM valM ((p, none) :: rest) = ([Ev.processing p], true))

/-- Claim C7 (amended): in the bundle batch an `Image.open` failure is
caught and reported and the loop continues with the remaining bundles
(the result is the independent per-item event list); in the single-file
path, however, an open failure raises with no handler and aborts the run,
so the remaining images of that batch are never processed. -/
theorem open_failure_handling : OpenFailureSpec := by
  constructor
  · intro env output_dir apps hwf
    induction apps with
    | nil => rfl
    | cons a rest ih =>
      have hA : FS.plistOk env.fs a := hwf a (by simp)
      have hrest : Env.allPlistOk env rest := fun x hx => hwf x (by simp [hx])
      have hr := ih hrest
      rw [List.map_cons]
      simp only [recolor_app_icons]
      by_cases happ : endsWithStr (lowerStr a) ".app" = false
      · have hit : itemEvent env output_dir a = BEv.skippedNonApp a := by
          unfold itemEvent
          rw [if_pos happ]
        rw [if_pos happ, hit, hr]
        rfl
      · obtain ⟨o, ho⟩ := pull_app_icon_no_error env.fs a hA
        rw [if_neg happ, ho]
        cases o with
        | none =>
          have hit : itemEvent env output_dir a = BEv.noIcon a := by
            unfold itemEvent
            rw [if_neg happ, ho]
          rw [hit, hr]
          rfl
        | some icon_path =>
          dsimp only
          cases hop : env.openImg icon_path with
          | none =>
            have hit : itemEvent env output_dir a = BEv.openFailed a := by
              unfold itemEvent
              rw [if_neg happ, ho]
              dsimp only
              rw [hop]
            rw [hit, hr]
            rfl
          | some im =>
            have hit : itemEvent env output_dir a =
                (if env.saveOk (output_dir ++ "/" ++ splitextBase (basename a)
                    ++ ".icns") then
                  BEv.saved (output_dir ++ "/" ++ splitextBase (basename a) ++ ".icns")
                else
                  BEv.saveFailed (output_dir ++ "/" ++ splitextBase (basename a)
                    ++ ".icns")) := by
              unfold itemEvent
              rw [if_neg happ, ho]
              dsimp only
              rw [hop]
            rw [hit, hr]
            rfl
  · intro target satM valM p rest
    rfl

/-- Counterexample to claim C7 as stated: in the single-file run with the
parseable descriptor `#FF0000` and two input images, the first image's
open failure aborts the run — the trace stops at the first item, the
second image is never processed, and nothing is saved. -/
theorem open_failure_aborts_single_run :
    (runSingle1 "#FF0000" 1 1 [ ("a.png", none), ("b.png", some img1)]).1 =
      [Ev.processing "a.png"] ∧
    (runSingle1 "#FF0000" 1 1 [ ("a.png", none), ("b.png", some img1)]).2 = true ∧
    Ev.processing "b.png" ∉
      (runSingle1 "#FF0000" 1 1 [ ("a.png", none), ("b.png", some img1)]).1 := by
  refine ⟨rfl, rfl, ?_⟩
  decide

/-- Witness for claim C7 at a concrete environment: the first bundle's
icon fails to open, the second is still saved. -/
def env7 : Env :=
  ⟨[ ("A.app/Contents/Info.plist", some [ ("CFBundleIconFile", "A.icns")]),
     ("A.app/Contents/Resources/A.icns", some []),
     ("B.app/Contents/Info.plist", some [ ("CFBundleIconFile", "B.icns")]),
     ("B.app/Contents/Resources/B.icns", some [])],
   fun p => if p = "A.app/Contents/Resources/A.icns" then none else some img1,
   fun _ => true⟩

/-- Witness for claim C7: instantiates the bundle half at `env7` with the
two bundles, and the single-file half at a concrete aborted batch. -/
theorem open_failure_handling_witness :
    Env.allPlistOk env7 ["A.app", "B.app"] ∧
    recolor_app_icons env7 "out" ["A.app", "B.app"] =
      .ok [BEv.openFailed "A.app", BEv.saved "out/B.icns"] ∧
    runSingle1 "#FF0000" 1 1 [ ("a.png", none)] = ([Ev.processing "a.png"], true) := by
  have h := open_failure_handling
  have hwf : Env.allPlistOk env7 ["A.app", "B.app"] := by
    intro a ha
    simp only [List.mem_cons, List.not_mem_nil, or_false] at ha
    rcases ha with rfl | rfl
    · unfold FS.plistOk env7
      decide
    · unfold FS.plistOk env7
      decide
  refine ⟨hwf, ?_, h.2 "#FF0000" 1 1 "a.png" []⟩
  have h1 := h.1 env7 "out" ["A.app", "B.app"] hwf
  rw [h1]
  have h2 : List.map (itemEvent env7 "out") ["A.app", "B.app"] =
      [BEv.openFailed "A.app", BEv.saved "out/B.icns"] := by
    unfold itemEvent env7 pull_app_icon fixIcnsSuffix isfile basename splitextBase
    decide
  rw [h2]

end IconMaker
